import Mathlib

/-!
# go-gotham: the `models.User` record

A shallow embedding of `src/models/user.go`: the `User` struct, the credential
check `VerifyPassword`, the persistence operations `Create`, `Save`, `Delete`
and the status predicates `IsVerified`, `IsAdmin`.

The three packages the file imports are not part of the repository
(`golang.org/x/crypto/bcrypt`, `gorm.io/gorm`) or are not under `src/`
(`gotham/app`): what `user.go` calls of them is taken as a parameter of the
operation that calls it. Where a claim is decided inside a library, the
library function is written out after its own source (`bcrypt.go`,
`encoding/json`, `unicode/utf8`, `time`), which is named at the definition.
-/

/-- A Go `byte` (`uint8`): a value in `0 .. 255`. -/
abbrev Byte := Fin 256

/-- A Go `string`: an immutable sequence of bytes of any length. -/
abbrev GoString := List Byte

/-- The conversion `[]byte(s)`: the bytes of the string, unchanged. -/
def bytes (s : GoString) : List Byte := s

/-- A non-nil value of Go's `error` interface, which has the one method
`Error() string`. -/
structure GoError where
  message : String
deriving DecidableEq, Repr

/-- Go's `error`: `none` is `nil`, `some e` a failure. -/
abbrev error := Option GoError

namespace time

/-- Go's `time.Time` as far as this file reads it: the year that `Year()`
reports, in the location of the time, and the instant within that year in
seconds, the resolution of the `datetime(0)` columns. The zero value of the
type is the start of year 1. -/
structure Time where
  year : Int
  second : Nat
deriving DecidableEq, Repr

/-- The method `Year` of `time.Time`. -/
def Time.Year (t : Time) : Int := t.year

end time

namespace gorm

/-- The type `gorm.DeletedAt` (an `sql.NullTime`): `Valid` set marks the row as
soft-deleted at `Time`. -/
structure DeletedAt where
  Time : time.Time
  Valid : Bool
deriving DecidableEq, Repr

/-- What a caller reads from a returned `*gorm.DB`: the error the call carries
and the number of rows it affected. -/
structure DB where
  Error : error
  RowsAffected : Int
deriving DecidableEq, Repr

/-- The value `gorm.ErrRecordNotFound`. -/
def ErrRecordNotFound : GoError := ⟨"record not found"⟩

end gorm

namespace models

/-- The struct `User` of `user.go`, lines 10-24, field by field. `uint` is a
natural number (no arithmetic is done on it here), `uint8` a value below 256,
`*string` an optional string. -/
structure User where
  ID : Nat
  Name : GoString
  Email : GoString
  Password : GoString
  Verified : Fin 256
  VerificationToken : Option GoString
  Image : Option GoString
  Admin : Fin 256
  CreatedAt : time.Time
  UpdatedAt : time.Time
  DeletedAt : gorm.DeletedAt
deriving DecidableEq, Repr

/-- The method `VerifyPassword` (lines 32-35):
`err := bcrypt.CompareHashAndPassword([]byte(u.Password), []byte(password))`,
then `return err == nil`. The bcrypt function is the parameter
`CompareHashAndPassword`, in the argument order of the call. -/
def User.VerifyPassword (CompareHashAndPassword : List Byte → List Byte → error)
    (u : User) (password : GoString) : Bool :=
  let err := CompareHashAndPassword (bytes u.Password) (bytes password)
  err == none

/-- The method `IsVerified` (lines 71-73): `return u.Verified == 1`. -/
def User.IsVerified (u : User) : Bool :=
  u.Verified == 1

/-- The method `IsAdmin` (lines 80-82): `return u.Admin == 1`. -/
def User.IsAdmin (u : User) : Bool :=
  u.Admin == 1

end models

open models

namespace gorm

/-- The rows of the `users` table the storage collaborator holds. -/
abbrev Table := List User

/-- What one call on the storage collaborator leaves behind: the `*gorm.DB` it
returns, the record behind the pointer it was given, and the table. -/
structure Outcome where
  tx : DB
  value : User
  table : Table
deriving DecidableEq, Repr

/-- The storage collaborator `app.Application.Container.GetDb()` as `user.go`
uses it: the three methods it calls, each a function of the record passed and
of the table. The package `gotham/app` and gorm itself are not under `src/`. -/
structure Store where
  Create : User → Table → Outcome
  Save : User → Table → Outcome
  Delete : User → Table → Outcome

end gorm

namespace models

/-- The method `Create` (lines 43-45):
`return app.Application.Container.GetDb().Create(&u)`. -/
def User.Create (GetDb : gorm.Store) (u : User) (table : gorm.Table) : gorm.Outcome :=
  GetDb.Create u table

/-- The method `Save` (lines 52-54):
`return app.Application.Container.GetDb().Save(&u)`. -/
def User.Save (GetDb : gorm.Store) (u : User) (table : gorm.Table) : gorm.Outcome :=
  GetDb.Save u table

/-- The method `Delete` (lines 61-63):
`return app.Application.Container.GetDb().Delete(&u)`. -/
def User.Delete (GetDb : gorm.Store) (u : User) (table : gorm.Table) : gorm.Outcome :=
  GetDb.Delete u table

end models

namespace utf8

/-- The table `first` of `unicode/utf8` with its `acceptRanges`: for a leading
byte of a multi-byte rune, the size of the rune and the range its second byte
must lie in; `none` for a byte that leads no multi-byte rune. -/
def lead (b : Byte) : Option (Nat × Nat × Nat) :=
  if 0xC2 ≤ b.val ∧ b.val ≤ 0xDF then some (2, 0x80, 0xBF)
  else if b.val = 0xE0 then some (3, 0xA0, 0xBF)
  else if 0xE1 ≤ b.val ∧ b.val ≤ 0xEC then some (3, 0x80, 0xBF)
  else if b.val = 0xED then some (3, 0x80, 0x9F)
  else if 0xEE ≤ b.val ∧ b.val ≤ 0xEF then some (3, 0x80, 0xBF)
  else if b.val = 0xF0 then some (4, 0x90, 0xBF)
  else if 0xF1 ≤ b.val ∧ b.val ≤ 0xF3 then some (4, 0x80, 0xBF)
  else if b.val = 0xF4 then some (4, 0x80, 0x8F)
  else none

/-- A continuation byte, `locb <= b <= hicb`. -/
def continuation (b : Byte) : Bool :=
  decide (0x80 ≤ b.val ∧ b.val ≤ 0xBF)

/-- The size `DecodeRuneInString` reports for a well-formed rune at the front
of a non-empty string; `none` where it reports `(RuneError, 1)`, the front
byte starting no well-formed rune. -/
def runeSize : List Byte → Option Nat
  | [] => none
  | s0 :: rest =>
    if s0.val < 0x80 then some 1
    else
      match lead s0, rest with
      | some (2, lo, hi), s1 :: _ =>
        if lo ≤ s1.val ∧ s1.val ≤ hi then some 2 else none
      | some (3, lo, hi), s1 :: s2 :: _ =>
        if lo ≤ s1.val ∧ s1.val ≤ hi ∧ continuation s2 = true then some 3 else none
      | some (4, lo, hi), s1 :: s2 :: s3 :: _ =>
        if lo ≤ s1.val ∧ s1.val ≤ hi ∧ continuation s2 = true ∧ continuation s3 = true
        then some 4 else none
      | _, _ => none

/-- The scan of `ValidString`: `pending` bytes of the rune last accepted are
still to be passed over; then every byte must start a well-formed rune. -/
def validFrom : Nat → List Byte → Bool
  | _, [] => true
  | pending + 1, _ :: rest => validFrom pending rest
  | 0, b :: rest =>
    match runeSize (b :: rest) with
    | some n => validFrom (n - 1) rest
    | none => false

/-- The function `utf8.ValidString`: the string is a sequence of well-formed
runes. -/
def ValidString (s : GoString) : Bool :=
  validFrom 0 s

end utf8

namespace json

/-- A JSON value as the outward view of a `User` needs it. -/
inductive Value where
  | null
  | number (n : Nat)
  | string (s : GoString)
  | time (t : time.Time)
deriving DecidableEq, Repr

/-- The scan of the string encoder of `encoding/json`: the bytes of a
well-formed rune are written as they are, a byte that starts no well-formed
rune is written as U+FFFD (the bytes EF BF BD). The escapes the encoder writes
for quotes, control characters and HTML characters change the text, not
the string the text stands for. -/
def coerceFrom : Nat → List Byte → List Byte
  | _, [] => []
  | pending + 1, b :: rest => b :: coerceFrom pending rest
  | 0, b :: rest =>
    match utf8.runeSize (b :: rest) with
    | some n => b :: coerceFrom (n - 1) rest
    | none => 0xEF :: 0xBF :: 0xBD :: coerceFrom 0 rest

/-- The string a Go `string` is written as. -/
def ofString (s : GoString) : Value :=
  Value.string (coerceFrom 0 s)

/-- The method `MarshalJSON` of `time.Time`: a year outside `0 .. 9999` is an
error ("RFC 3339 is clear that years are 4 digits exactly"). Releases of Go
from 1.20 on also refuse a zone offset of 24 hours or more, which `time.Time`
as written here does not carry. -/
def ofTime (t : time.Time) : Except GoError Value :=
  if t.Year < 0 ∨ t.Year ≥ 10000 then
    Except.error ⟨"Time.MarshalJSON: year outside of range [0,9999]"⟩
  else Except.ok (Value.time t)

/-- A `*string` field: `null` for a nil pointer, the string otherwise. -/
def ofPointer : Option GoString → Value
  | none => Value.null
  | some s => ofString s

/-- One field of the struct as `encoding/json` sees it: its Go name, the name in
its `json:"..."` tag, and how its value is encoded. -/
structure Field where
  name : String
  tag : String
  encode : User → Except GoError Value

/-- The fields of `User` in declaration order with their `json` tags, lines
11-23 of `user.go`. -/
def fields : List Field :=
  [ ⟨"ID", "id", fun u => Except.ok (Value.number u.ID)⟩,
    ⟨"Name", "name", fun u => Except.ok (ofString u.Name)⟩,
    ⟨"Email", "email", fun u => Except.ok (ofString u.Email)⟩,
    ⟨"Password", "-", fun u => Except.ok (ofString u.Password)⟩,
    ⟨"Verified", "verified", fun u => Except.ok (Value.number u.Verified.val)⟩,
    ⟨"VerificationToken", "-", fun u => Except.ok (ofPointer u.VerificationToken)⟩,
    ⟨"Image", "image", fun u => Except.ok (ofPointer u.Image)⟩,
    ⟨"Admin", "admin", fun u => Except.ok (Value.number u.Admin.val)⟩,
    ⟨"CreatedAt", "created_at", fun u => ofTime u.CreatedAt⟩,
    ⟨"UpdatedAt", "updated_at", fun u => ofTime u.UpdatedAt⟩,
    ⟨"DeletedAt", "-", fun u =>
      if u.DeletedAt.Valid then ofTime u.DeletedAt.Time else Except.ok Value.null⟩ ]

/-- The fields `encoding/json` writes: those whose tag is not `json:"-"`. -/
def exported : List Field :=
  fields.filter fun f => f.tag != "-"

/-- The struct encoder: the fields are written in order under the names of
their tags, and the first field whose encoding fails fails the whole call. -/
def encodeFields (u : User) : List Field → Except GoError (List (String × Value))
  | [] => Except.ok []
  | f :: rest =>
    match f.encode u with
    | Except.error e => Except.error e
    | Except.ok v =>
      match encodeFields u rest with
      | Except.error e => Except.error e
      | Except.ok entries => Except.ok ((f.tag, v) :: entries)

/-- The call `json.Marshal(u)`: the object of the exported fields, or the error
of the first field that cannot be encoded and no object. -/
def Marshal (u : User) : Except GoError (List (String × Value)) :=
  encodeFields u exported

end json

namespace bcrypt

/-- The random salt a hash is generated with, made an explicit argument. -/
abbrev Salt := List Byte

/-- Modelled from the spec: the relation between the two operations of the
password-hashing primitive (bcrypt, which is not part of the repository), from
section 4.1: the comparison "computes the one-way hash comparison between
candidate and the stored PasswordHash" with a salted algorithm, that is, a
candidate matches a stored hash exactly when hashing the candidate under the
salt of the stored hash gives the stored hash. -/
def ComparesByHashing (Hash : Salt → GoString → GoString)
    (CompareHashAndPassword : List Byte → List Byte → error) : Prop :=
  ∀ s P P', CompareHashAndPassword (Hash s P) P' = none ↔ Hash s P' = Hash s P

/-! The comparison of `golang.org/x/crypto/bcrypt` (`bcrypt.go`), function by
function. Its Blowfish computation `bcrypt(password, cost, salt)` is not
written out: it is the parameter `core` of `CompareHashAndPassword`. -/

/-- The constant `majorVersion`, the byte `2`. -/
def majorVersion : Byte := 50

/-- The constant `encodedSaltSize`. -/
def encodedSaltSize : Nat := 22

/-- The constant `encodedHashSize`. -/
def encodedHashSize : Nat := 31

/-- The constant `minHashSize`. -/
def minHashSize : Nat := 59

/-- The constant `MinCost`. -/
def MinCost : Int := 4

/-- The constant `MaxCost`. -/
def MaxCost : Int := 31

/-- The error `ErrMismatchedHashAndPassword`. -/
def ErrMismatchedHashAndPassword : GoError :=
  ⟨"crypto/bcrypt: hashedPassword is not the hash of the given password"⟩

/-- The error `ErrHashTooShort`. -/
def ErrHashTooShort : GoError :=
  ⟨"crypto/bcrypt: hashedSecret too short to be a bcrypted password"⟩

/-- An `InvalidHashPrefixError`, without the byte it names. -/
def InvalidHashPrefixError : GoError :=
  ⟨"crypto/bcrypt: bcrypt hashes must start with $"⟩

/-- A `HashVersionTooNewError`, without the byte it names. -/
def HashVersionTooNewError : GoError :=
  ⟨"crypto/bcrypt: bcrypt algorithm version requested is newer than current version"⟩

/-- An `InvalidCostError`, without the cost it names. -/
def InvalidCostError : GoError :=
  ⟨"crypto/bcrypt: cost is outside allowed range (4,31)"⟩

/-- The syntax error of `strconv.Atoi`, without the text it names. -/
def AtoiSyntaxError : GoError :=
  ⟨"strconv.Atoi: invalid syntax"⟩

/-- The struct `hashed`: the encoded hash and salt, the cost and the two
version bytes (`minor` is 0 when the version has one byte). -/
structure hashed where
  hash : List Byte
  salt : List Byte
  cost : Nat
  major : Byte
  minor : Byte
deriving DecidableEq, Repr

/-- A decimal digit. -/
def isDigit (b : Byte) : Bool :=
  decide (48 ≤ b.val ∧ b.val ≤ 57)

/-- The call `strconv.Atoi(string(sbytes[0:2]))` on the two bytes `a`, `b`: a
sign and a digit, or two digits; anything else is a syntax error. -/
def Atoi2 (a b : Byte) : Option Int :=
  if a.val = 43 ∨ a.val = 45 then
    if isDigit b then some (if a.val = 45 then -((b.val : Int) - 48) else (b.val : Int) - 48)
    else none
  else if isDigit a && isDigit b then some (((a.val : Int) - 48) * 10 + ((b.val : Int) - 48))
  else none

/-- The method `decodeVersion`: the slice must start with `$` and a major
version that is not above `2`; a third byte other than `$` is the minor
version. The result is the major version, the minor version and the number of
bytes read. It is called on slices of at least `minHashSize` bytes only; on a
shorter slice Go would fail on the index. -/
def decodeVersion (sbytes : List Byte) : Except GoError (Byte × Byte × Nat) :=
  match sbytes with
  | s0 :: s1 :: s2 :: _ =>
    if s0.val ≠ 36 then Except.error InvalidHashPrefixError
    else if s1 > majorVersion then Except.error HashVersionTooNewError
    else if s2.val ≠ 36 then Except.ok (s1, s2, 4)
    else Except.ok (s1, 0, 3)
  | _ => Except.error ErrHashTooShort

/-- The method `decodeCost`: the first two bytes are read with `strconv.Atoi`,
`checkCost` refuses a cost below `MinCost` or above `MaxCost`, and three bytes
are consumed. -/
def decodeCost (sbytes : List Byte) : Except GoError (Nat × Nat) :=
  match sbytes with
  | c0 :: c1 :: _ =>
    match Atoi2 c0 c1 with
    | none => Except.error AtoiSyntaxError
    | some cost =>
      if cost < MinCost ∨ cost > MaxCost then Except.error InvalidCostError
      else Except.ok (cost.toNat, 3)
  | _ => Except.error ErrHashTooShort

/-- The function `newFromHash`: a slice shorter than `minHashSize` is refused,
the version and the cost are decoded, the next `encodedSaltSize` bytes are the
salt and all bytes after them are taken as the hash. -/
def newFromHash (hashedSecret : List Byte) : Except GoError hashed :=
  if hashedSecret.length < minHashSize then Except.error ErrHashTooShort
  else
    match decodeVersion hashedSecret with
    | Except.error e => Except.error e
    | Except.ok (major, minor, n) =>
      match decodeCost (hashedSecret.drop n) with
      | Except.error e => Except.error e
      | Except.ok (cost, m) =>
        Except.ok
          { hash := ((hashedSecret.drop n).drop m).drop encodedSaltSize,
            salt := ((hashedSecret.drop n).drop m).take encodedSaltSize,
            cost := cost, major := major, minor := minor }

/-- The built-in `copy(dst[n:], src)`: as many bytes of `src` as fit are
written into `dst` from index `n` on. -/
def copy (dst : List Byte) (n : Nat) (src : List Byte) : List Byte :=
  dst.take n ++ src.take (dst.length - n) ++ dst.drop (n + src.length)

/-- The text of `fmt.Sprintf("%02d", cost)`. -/
def Sprintf02d (cost : Nat) : List Byte :=
  let digits := (Nat.toDigits 10 cost).map fun c => (Fin.ofNat c.toNat : Byte)
  if cost < 10 then 48 :: digits else digits

/-- The method `Hash` of `hashed`: the 60-byte array is filled with `$`, the
version, `$`, the cost in two digits, `$`, the salt and the hash, and cut
after `encodedHashSize` bytes of hash. -/
def hashed.Hash (p : hashed) : List Byte :=
  let arr := List.replicate 60 (0 : Byte)
  let arr := arr.set 0 36
  let arr := arr.set 1 p.major
  let n := 2
  let arr := if p.minor ≠ 0 then arr.set 2 p.minor else arr
  let n := if p.minor ≠ 0 then 3 else n
  let arr := arr.set n 36
  let n := n + 1
  let arr := copy arr n (Sprintf02d p.cost)
  let n := n + 2
  let arr := arr.set n 36
  let n := n + 1
  let arr := copy arr n p.salt
  let n := n + encodedSaltSize
  let arr := copy arr n p.hash
  let n := n + encodedHashSize
  arr.take n

/-- The function `CompareHashAndPassword`: the stored value is parsed with
`newFromHash`, the candidate is hashed by `core` with the cost and salt parsed,
and the two are compared after both are written out by `Hash`
(`subtle.ConstantTimeCompare` is 1 exactly for equal slices). -/
def CompareHashAndPassword (core : List Byte → Nat → List Byte → Except GoError (List Byte))
    (hashedPassword password : List Byte) : error :=
  match newFromHash hashedPassword with
  | Except.error e => some e
  | Except.ok p =>
    match core password p.cost p.salt with
    | Except.error e => some e
    | Except.ok otherHash =>
      let otherP : hashed :=
        { hash := otherHash, salt := p.salt, cost := p.cost, major := p.major, minor := p.minor }
      if p.Hash = otherP.Hash then none else some ErrMismatchedHashAndPassword

/-- The front of a hash of version `2a` and cost 10: the bytes of `$2a$10$`. -/
def header2a10 : List Byte := [36, 50, 97, 36, 49, 48, 36]

/-- An encoded salt: 22 times the byte `.`. -/
def dotSalt : List Byte := List.replicate 22 46

end bcrypt

namespace gorm

/-- What `Save` of gorm does with a record whose primary key is not zero and is
on no row of the table: its update of all fields matches no row, and the record
is then inserted; the call carries no error and the table has one row more, with
the primary key of the record. (gorm documents `Save` as "a combination
function": "If save value does not contain primary key, it will execute
Create, otherwise it will execute Update (with all fields)".) It is stated for
a record whose e-mail address is on no row, whose strings fit the sizes of
their columns and whose two flags are 0 or 1, so that no constraint of the
table refuses the insert. -/
def SaveInsertsUnknownKey (Save : User → Table → Outcome) : Prop :=
  ∀ (u : User) (table : Table), u.ID ≠ 0 →
    (∀ r ∈ table, r.ID ≠ u.ID ∧ r.Email ≠ u.Email) →
    (u.Name.length ≤ 255 ∧ u.Email.length ≤ 100 ∧ u.Password.length ≤ 100 ∧
      (∀ t, u.VerificationToken = some t → t.length ≤ 50) ∧
      (∀ i, u.Image = some i → i.length ≤ 500) ∧ u.Verified.val ≤ 1 ∧ u.Admin.val ≤ 1) →
    (Save u table).tx.Error = none ∧
    ∃ row : User, row.ID = u.ID ∧ (Save u table).table = table ++ [row]

end gorm

namespace demo

/-- A small hashing primitive of the shape of bcrypt, used to instantiate the
theorems below: the hash is one salt byte followed by the first three bytes of
the password. -/
def Hash (salt : bcrypt.Salt) (password : GoString) : GoString :=
  salt.headD 0 :: password.take 3

/-- The comparison of the small primitive: an empty stored value is too short
to be a hash, otherwise the candidate is hashed under the stored salt byte and
the two hashes are compared. -/
def CompareHashAndPassword (hashedPassword password : List Byte) : error :=
  match hashedPassword with
  | [] => some ⟨"hashedSecret too short to be a bcrypted password"⟩
  | salt :: _ =>
    if Hash [salt] password = hashedPassword then none
    else some ⟨"hashedPassword is not the hash of the given password"⟩

/-- A record with every field at its zero value. -/
def zeroUser : User :=
  { ID := 0, Name := [], Email := [], Password := [], Verified := 0,
    VerificationToken := none, Image := none, Admin := 0,
    CreatedAt := ⟨1, 0⟩, UpdatedAt := ⟨1, 0⟩, DeletedAt := ⟨⟨1, 0⟩, false⟩ }

/-- A record that was never persisted: the name `a`, the address `a@b`, and
the primary key 7, which is on no row. -/
def unsavedUser : User :=
  { zeroUser with ID := 7, Name := [97], Email := [97, 64, 98] }

/-- A row that is in the table, with primary key 1. -/
def storedUser : User :=
  { zeroUser with
    ID := 1, Name := [99], Email := [99, 64, 100],
    CreatedAt := ⟨2021, 50⟩, UpdatedAt := ⟨2021, 50⟩ }

/-- A record with an image, the name `é` (C3 A9) and both timestamps in 2021. -/
def pictured : User :=
  { zeroUser with
    ID := 3, Name := [0xC3, 0xA9], Email := [97, 64, 98], Password := [1, 2, 3],
    VerificationToken := some [9], Image := some [105, 46, 112, 110, 103],
    CreatedAt := ⟨2021, 50⟩, UpdatedAt := ⟨2021, 60⟩ }

end demo

/-! ## Theorems -/

/-- C1: `VerifyPassword` is a total function into `Bool`; it is `true` exactly
when the comparison of the stored `Password` against the candidate reports no
error, and `false` exactly when that comparison reports an error, whichever
error it is. -/
theorem verifyPassword_true_iff_no_error
    (CompareHashAndPassword : List Byte → List Byte → error) (u : User) (password : GoString) :
    (u.VerifyPassword CompareHashAndPassword password = true ↔
        CompareHashAndPassword u.Password password = none) ∧
    (u.VerifyPassword CompareHashAndPassword password = false ↔
        ∃ e, CompareHashAndPassword u.Password password = some e) ∧
    (∀ e, CompareHashAndPassword u.Password password = some e →
        u.VerifyPassword CompareHashAndPassword password = false) := by
  unfold User.VerifyPassword bytes
  cases h : CompareHashAndPassword u.Password password <;> simp

/-- C4: `IsVerified` is `true` if and only if `Verified` equals 1, and `false`
if and only if `Verified` is one of the other 255 values of the field. -/
theorem isVerified_iff (u : User) :
    (u.IsVerified = true ↔ u.Verified = 1) ∧
    (u.IsVerified = false ↔ u.Verified ≠ 1) ∧
    (u.IsVerified = false ↔ u.Verified = 0 ∨ (2 ≤ u.Verified.val ∧ u.Verified.val ≤ 255)) := by
  unfold User.IsVerified
  refine ⟨by simp, by simp, ?_⟩
  have hlt := u.Verified.isLt
  simp only [beq_eq_false_iff_ne, ne_eq, Fin.ext_iff, Fin.val_one, Fin.val_zero]
  omega

/-- C5: `IsAdmin` is `true` if and only if `Admin` equals 1, and `false` if and
only if `Admin` is any other value of the field. -/
theorem isAdmin_iff (u : User) :
    (u.IsAdmin = true ↔ u.Admin = 1) ∧ (u.IsAdmin = false ↔ u.Admin ≠ 1) := by
  unfold User.IsAdmin
  exact ⟨by simp, by simp⟩

/-- C8: a record and the same record with any other `DeletedAt` (live or
soft-deleted) get the same `IsVerified` and the same `IsAdmin`. -/
theorem predicates_ignore_deletedAt (u : User) (d : gorm.DeletedAt) :
    ({ u with DeletedAt := d } : User).IsVerified = u.IsVerified ∧
    ({ u with DeletedAt := d } : User).IsAdmin = u.IsAdmin :=
  ⟨rfl, rfl⟩

/-- C10: two records with the same `Password` get the same `VerifyPassword`
result for every candidate, whatever their other fields hold. -/
theorem verifyPassword_depends_on_password_only
    (CompareHashAndPassword : List Byte → List Byte → error) (u v : User) (password : GoString)
    (h : u.Password = v.Password) :
    u.VerifyPassword CompareHashAndPassword password =
      v.VerifyPassword CompareHashAndPassword password := by
  unfold User.VerifyPassword
  rw [h]

/-- C10, at a concrete input: an unverified record and a soft-deleted
administrator with the same stored hash both accept the matching candidate. -/
theorem verifyPassword_depends_on_password_only_witness :
    ({ demo.zeroUser with Password := [7, 1, 2, 3] } : User).VerifyPassword
        demo.CompareHashAndPassword [1, 2, 3] = true ∧
    ({ demo.zeroUser with Password := [7, 1, 2, 3] } : User).VerifyPassword
        demo.CompareHashAndPassword [1, 2, 3] =
      ({ demo.zeroUser with
          ID := 5, Password := [7, 1, 2, 3], Admin := 1, DeletedAt := ⟨⟨2024, 9⟩, true⟩ } : User).VerifyPassword
        demo.CompareHashAndPassword [1, 2, 3] :=
  ⟨by decide,
   verifyPassword_depends_on_password_only demo.CompareHashAndPassword _ _ [1, 2, 3] rfl⟩

/-- C6: `Create`, `Save` and `Delete` each leave exactly what the one call on
the storage collaborator leaves: the same returned handle (its error and its
row count), the same record and the same table; in particular they carry an
error if and only if that call does, and the same one. -/
theorem persistence_results_are_the_collaborators
    (GetDb : gorm.Store) (u : User) (table : gorm.Table) :
    (u.Create GetDb table = GetDb.Create u table ∧
      u.Save GetDb table = GetDb.Save u table ∧
      u.Delete GetDb table = GetDb.Delete u table) ∧
    ((u.Create GetDb table).tx.Error = (GetDb.Create u table).tx.Error ∧
      (u.Save GetDb table).tx.Error = (GetDb.Save u table).tx.Error ∧
      (u.Delete GetDb table).tx.Error = (GetDb.Delete u table).tx.Error) :=
  ⟨⟨rfl, rfl, rfl⟩, rfl, rfl, rfl⟩

/-! ### The hashing primitive -/

/-- The small primitive compares by hashing the candidate under the stored
salt byte. -/
theorem demo.comparesByHashing :
    bcrypt.ComparesByHashing demo.Hash demo.CompareHashAndPassword := by
  intro s P P'
  simp [demo.CompareHashAndPassword, demo.Hash]

/-- C2, refuted: no hashing primitive whose hashes have a bounded length (the
`Password` column holds at most 100 characters) makes `VerifyPassword` accept
the password a record was hashed from and reject every other candidate: two
different passwords share a hash, and each is accepted on the record made from
the other. -/
theorem no_bounded_hash_rejects_every_other_password :
    ¬ ∃ (Hash : bcrypt.Salt → GoString → GoString)
        (CompareHashAndPassword : List Byte → List Byte → error) (size : Nat),
      (∀ s P, (Hash s P).length ≤ size) ∧
      ∀ (s : bcrypt.Salt) (P : GoString) (u : User), u.Password = Hash s P →
        u.VerifyPassword CompareHashAndPassword P = true ∧
        ∀ P', P' ≠ P → u.VerifyPassword CompareHashAndPassword P' = false := by
  rintro ⟨Hash, cmp, size, hlen, hclaim⟩
  have hfin : Set.Finite {l : List Byte | l.length ≤ size} := List.finite_length_le _ _
  have : Finite {l : List Byte | l.length ≤ size} := hfin.to_subtype
  obtain ⟨P, P', hne, heq⟩ := Finite.exists_ne_map_eq_of_infinite
    (fun P : GoString => (⟨Hash [] P, hlen [] P⟩ : {l : List Byte | l.length ≤ size}))
  have heq' : Hash [] P = Hash [] P' := congrArg Subtype.val heq
  have haccept := (hclaim [] P' { demo.zeroUser with Password := Hash [] P } heq').1
  have hreject := (hclaim [] P { demo.zeroUser with Password := Hash [] P } rfl).2 P' (Ne.symm hne)
  rw [haccept] at hreject
  exact Bool.noConfusion hreject

/-- C2, amended: with a primitive that compares by hashing, a record holding
the hash of `P` accepts `P`, and accepts a candidate `P'` exactly when `P'` has
the same hash under the same salt; every candidate with another hash is
rejected. -/
theorem verifyPassword_accepts_iff_same_hash
    (Hash : bcrypt.Salt → GoString → GoString)
    (CompareHashAndPassword : List Byte → List Byte → error)
    (hprim : bcrypt.ComparesByHashing Hash CompareHashAndPassword)
    (s : bcrypt.Salt) (P P' : GoString) (u : User) (hu : u.Password = Hash s P) :
    u.VerifyPassword CompareHashAndPassword P = true ∧
    (u.VerifyPassword CompareHashAndPassword P' = true ↔ Hash s P' = Hash s P) ∧
    (Hash s P' ≠ Hash s P → u.VerifyPassword CompareHashAndPassword P' = false) := by
  have key : ∀ Q, u.VerifyPassword CompareHashAndPassword Q = true ↔ Hash s Q = Hash s P := by
    intro Q
    rw [← hprim s P Q, ← hu]
    unfold User.VerifyPassword bytes
    cases CompareHashAndPassword u.Password Q <;> simp
  refine ⟨(key P).2 rfl, key P', fun hne => ?_⟩
  cases hv : u.VerifyPassword CompareHashAndPassword P' with
  | false => rfl
  | true => exact absurd ((key P').1 hv) hne

/-- C2, amended, at a concrete input: on the record hashed from `[1, 2, 3]`
the small primitive accepts `[1, 2, 3]`, rejects `[1, 2, 4]`, and accepts
`[1, 2, 3, 4]`, which has the same hash. -/
theorem verifyPassword_accepts_iff_same_hash_witness :
    bcrypt.ComparesByHashing demo.Hash demo.CompareHashAndPassword ∧
    ({ demo.zeroUser with Password := demo.Hash [7] [1, 2, 3] } : User).VerifyPassword
        demo.CompareHashAndPassword [1, 2, 3] = true ∧
    ({ demo.zeroUser with Password := demo.Hash [7] [1, 2, 3] } : User).VerifyPassword
        demo.CompareHashAndPassword [1, 2, 4] = false ∧
    ({ demo.zeroUser with Password := demo.Hash [7] [1, 2, 3] } : User).VerifyPassword
        demo.CompareHashAndPassword [1, 2, 3, 4] = true :=
  ⟨demo.comparesByHashing,
   (verifyPassword_accepts_iff_same_hash demo.Hash demo.CompareHashAndPassword
      demo.comparesByHashing [7] [1, 2, 3] [1, 2, 4] _ rfl).1,
   (verifyPassword_accepts_iff_same_hash demo.Hash demo.CompareHashAndPassword
      demo.comparesByHashing [7] [1, 2, 3] [1, 2, 4] _ rfl).2.2 (by decide),
   (verifyPassword_accepts_iff_same_hash demo.Hash demo.CompareHashAndPassword
      demo.comparesByHashing [7] [1, 2, 3] [1, 2, 3, 4] _ rfl).2.1.2 (by decide)⟩


/-! ### The outward view -/

/-- The string encoder leaves a string of well-formed runes as it is. -/
theorem json.coerceFrom_of_valid (s : GoString) :
    ∀ pending : Nat, utf8.validFrom pending s = true → json.coerceFrom pending s = s := by
  induction s with
  | nil => intro pending _; cases pending <;> rfl
  | cons b rest ih =>
    intro pending h
    cases pending with
    | succ k =>
      simp only [utf8.validFrom] at h
      simp only [json.coerceFrom, ih k h]
    | zero =>
      simp only [utf8.validFrom] at h
      simp only [json.coerceFrom]
      cases hr : utf8.runeSize (b :: rest) with
      | none => simp [hr] at h
      | some n =>
        simp only [hr] at h
        simp only [ih (n - 1) h]

/-- C9, refuted: a record whose `CreatedAt` is in the year 10000 has no outward
view at all, `json.Marshal` answers with the error of `time.Time`; and the view
of a record whose `Name` is the single byte FF holds U+FFFD under `name`, not
the field. -/
theorem marshal_fails_on_year_10000 :
    json.Marshal { demo.pictured with CreatedAt := ⟨10000, 0⟩ } =
      Except.error ⟨"Time.MarshalJSON: year outside of range [0,9999]"⟩ ∧
    json.Marshal { demo.pictured with Name := [0xFF] } =
      Except.ok
        [("id", json.Value.number 3), ("name", json.Value.string [0xEF, 0xBF, 0xBD]),
         ("email", json.Value.string [97, 64, 98]), ("verified", json.Value.number 0),
         ("image", json.Value.string [105, 46, 112, 110, 103]),
         ("admin", json.Value.number 0), ("created_at", json.Value.time ⟨2021, 50⟩),
         ("updated_at", json.Value.time ⟨2021, 60⟩)] := by
  exact ⟨rfl, rfl⟩

/-- C9, amended: for a record whose `CreatedAt` and `UpdatedAt` have a year in
`0 .. 9999`, the outward view exists and is the eight entries `id`, `name`,
`email`, `verified`, `image`, `admin`, `created_at`, `updated_at`, each holding
its own field: numbers and times as they are, `image` as `null` exactly when the
pointer is nil, strings with every byte that starts no well-formed rune written
as U+FFFD, so that a string of well-formed runes is held unchanged. The fields
behind the entries are all but `Password`, `VerificationToken` and `DeletedAt`,
and the view does not change when those three fields do. -/
theorem marshal_view_of_encodable_user (u : User)
    (hcreated : 0 ≤ u.CreatedAt.Year ∧ u.CreatedAt.Year < 10000)
    (hupdated : 0 ≤ u.UpdatedAt.Year ∧ u.UpdatedAt.Year < 10000) :
    json.Marshal u =
      Except.ok
        [("id", json.Value.number u.ID),
         ("name", json.Value.string (json.coerceFrom 0 u.Name)),
         ("email", json.Value.string (json.coerceFrom 0 u.Email)),
         ("verified", json.Value.number u.Verified.val),
         ("image",
            match u.Image with
            | none => json.Value.null
            | some s => json.Value.string (json.coerceFrom 0 s)),
         ("admin", json.Value.number u.Admin.val),
         ("created_at", json.Value.time u.CreatedAt),
         ("updated_at", json.Value.time u.UpdatedAt)] ∧
    (∀ s : GoString, utf8.ValidString s = true → json.coerceFrom 0 s = s) ∧
    json.exported.map (fun f => f.name) =
      ["ID", "Name", "Email", "Verified", "Image", "Admin", "CreatedAt", "UpdatedAt"] ∧
    (∀ (pw : GoString) (tok : Option GoString) (d : gorm.DeletedAt),
      json.Marshal { u with Password := pw, VerificationToken := tok, DeletedAt := d } =
        json.Marshal u) := by
  have hc : ¬ (u.CreatedAt.Year < 0 ∨ u.CreatedAt.Year ≥ 10000) := by omega
  have hu : ¬ (u.UpdatedAt.Year < 0 ∨ u.UpdatedAt.Year ≥ 10000) := by omega
  refine ⟨?_, ?_, ?_, ?_⟩
  · cases himg : u.Image <;>
      simp [json.Marshal, json.exported, json.fields, json.encodeFields, json.ofTime,
        json.ofString, json.ofPointer, hc, hu, himg]
  · intro s hs
    exact json.coerceFrom_of_valid s 0 hs
  · simp [json.exported, json.fields]
  · intro pw tok d
    simp [json.Marshal, json.exported, json.fields, json.encodeFields]

/-- C9, amended, at a concrete input: the view of `demo.pictured`, whose name
`é` is well-formed and whose image pointer is set, holds the name and the image
unchanged and neither the password `[1, 2, 3]` nor the token `[9]`. -/
theorem marshal_view_of_encodable_user_witness :
    ((0 ≤ demo.pictured.CreatedAt.Year ∧ demo.pictured.CreatedAt.Year < 10000) ∧
      (0 ≤ demo.pictured.UpdatedAt.Year ∧ demo.pictured.UpdatedAt.Year < 10000)) ∧
    utf8.ValidString demo.pictured.Name = true ∧
    json.Marshal demo.pictured =
      Except.ok
        [("id", json.Value.number 3), ("name", json.Value.string [0xC3, 0xA9]),
         ("email", json.Value.string [97, 64, 98]), ("verified", json.Value.number 0),
         ("image", json.Value.string [105, 46, 112, 110, 103]),
         ("admin", json.Value.number 0), ("created_at", json.Value.time ⟨2021, 50⟩),
         ("updated_at", json.Value.time ⟨2021, 60⟩)] :=
  ⟨⟨by decide, by decide⟩, by decide,
   (marshal_view_of_encodable_user demo.pictured (by decide) (by decide)).1.trans rfl⟩

/-! ### The comparison of bcrypt -/

/-- A stored value that `newFromHash` refuses is refused by the comparison,
whatever the candidate and whatever the Blowfish computation. -/
theorem bcrypt.compare_of_newFromHash_error
    (core : List Byte → Nat → List Byte → Except GoError (List Byte))
    (hashedPassword password : List Byte) (e : GoError)
    (h : bcrypt.newFromHash hashedPassword = Except.error e) :
    bcrypt.CompareHashAndPassword core hashedPassword password = some e := by
  unfold bcrypt.CompareHashAndPassword
  rw [h]

/-- The function `newFromHash` refuses a stored value that is too short, that
does not start with `$`, or whose major version is above `2`. -/
theorem bcrypt.newFromHash_refuses (h : List Byte)
    (hbad : h.length < bcrypt.minHashSize ∨ h.head? ≠ some 36 ∨
      ∃ v, h[1]? = some v ∧ bcrypt.majorVersion < v) :
    ∃ e, bcrypt.newFromHash h = Except.error e := by
  unfold bcrypt.newFromHash
  by_cases hlen : h.length < bcrypt.minHashSize
  · exact ⟨_, if_pos hlen⟩
  · rw [if_neg hlen]
    match h, hlen, hbad with
    | [], hlen, _ => exact absurd (by simp [bcrypt.minHashSize]) hlen
    | [_], hlen, _ => exact absurd (by simp [bcrypt.minHashSize]) hlen
    | [_, _], hlen, _ => exact absurd (by simp [bcrypt.minHashSize]) hlen
    | s0 :: s1 :: s2 :: rest, hlen, hbad =>
      rcases hbad with hshort | hhead | ⟨v, hv, hnew⟩
      · exact absurd hshort hlen
      · have h0 : s0.val ≠ 36 := by
          intro h36
          apply hhead
          have : s0 = 36 := Fin.ext h36
          simp [this]
        simp [bcrypt.decodeVersion, h0]
      · have hv1 : s1 = v := by simpa using hv
        subst hv1
        by_cases h0 : s0.val = 36
        · simp [bcrypt.decodeVersion, h0, hnew]
        · simp [bcrypt.decodeVersion, h0]

/-- The function `newFromHash` on a value that starts with `$2a$10$` and a salt
of 22 bytes: every byte after the salt is taken as the hash. -/
theorem bcrypt.newFromHash_2a10 (salt rest : List Byte) (hsalt : salt.length = 22)
    (hrest : 30 ≤ rest.length) :
    bcrypt.newFromHash (bcrypt.header2a10 ++ salt ++ rest) =
      Except.ok { hash := rest, salt := salt, cost := 10, major := 50, minor := 97 } := by
  have hlen : ¬ (bcrypt.header2a10 ++ salt ++ rest).length < bcrypt.minHashSize := by
    simp [bcrypt.header2a10, bcrypt.minHashSize, hsalt]
    omega
  unfold bcrypt.newFromHash
  rw [if_neg hlen]
  have hversion : bcrypt.decodeVersion (bcrypt.header2a10 ++ salt ++ rest) =
      Except.ok (50, 97, 4) := rfl
  have hdrop : (bcrypt.header2a10 ++ salt ++ rest).drop 4 = 49 :: 48 :: 36 :: (salt ++ rest) := by
    simp [bcrypt.header2a10]
  have hcost : bcrypt.decodeCost (49 :: 48 :: 36 :: (salt ++ rest)) = Except.ok (10, 3) := by
    have hatoi : bcrypt.Atoi2 49 48 = some 10 := by decide
    simp [bcrypt.decodeCost, hatoi, bcrypt.MinCost, bcrypt.MaxCost]
  simp only [hversion, hdrop, hcost]
  have htake : List.take bcrypt.encodedSaltSize (salt ++ rest) = salt := by
    simp [bcrypt.encodedSaltSize, ← hsalt]
  have hdrop2 : List.drop bcrypt.encodedSaltSize (salt ++ rest) = rest := by
    simp [bcrypt.encodedSaltSize, ← hsalt]
  simp [htake, hdrop2]

/-- The method `Hash` on a value of version `2a` and cost 10 with a salt of 22
bytes: of the hash only the first 31 bytes are written. -/
theorem bcrypt.Hash_2a10 (salt hash : List Byte) (hsalt : salt.length = 22)
    (hhash : 31 ≤ hash.length) :
    ({ hash := hash, salt := salt, cost := 10, major := 50, minor := 97 } :
        bcrypt.hashed).Hash =
      bcrypt.header2a10 ++ salt ++ hash.take 31 := by
  have hfront :
      (bcrypt.copy ((((List.replicate 60 (0 : Byte)).set 0 36).set 1 50).set 2 97 |>.set 3 36)
          4 (bcrypt.Sprintf02d 10)).set 6 36 =
        bcrypt.header2a10 ++ List.replicate 53 0 := by decide
  have hminor : ((97 : Byte) ≠ 0) := by decide
  simp only [bcrypt.hashed.Hash, if_pos hminor, hfront, bcrypt.encodedSaltSize,
    bcrypt.encodedHashSize]
  have hsaltcopy : bcrypt.copy (bcrypt.header2a10 ++ List.replicate 53 0) 7 salt =
      bcrypt.header2a10 ++ salt ++ List.replicate 31 0 := by
    unfold bcrypt.copy
    have h1 : List.take 7 (bcrypt.header2a10 ++ List.replicate 53 (0 : Byte)) =
        bcrypt.header2a10 := by decide
    have h2 : (bcrypt.header2a10 ++ List.replicate 53 (0 : Byte)).length = 60 := by decide
    have h3 : List.drop (7 + salt.length) (bcrypt.header2a10 ++ List.replicate 53 (0 : Byte)) =
        List.replicate 31 0 := by
      rw [hsalt]
      decide
    rw [h1, h2, h3, List.take_of_length_le (by omega)]
  have hfront7 : bcrypt.header2a10.length = 7 := rfl
  have hlen29 : (bcrypt.header2a10 ++ salt).length = 29 := by
    simp [hfront7, hsalt]
  have hhashcopy : bcrypt.copy (bcrypt.header2a10 ++ salt ++ List.replicate 31 0) 29 hash =
      bcrypt.header2a10 ++ salt ++ hash.take 31 := by
    unfold bcrypt.copy
    have h1 : List.take 29 (bcrypt.header2a10 ++ salt ++ List.replicate 31 (0 : Byte)) =
        bcrypt.header2a10 ++ salt := by
      rw [← hlen29]
      exact List.take_left' rfl
    have h2 : (bcrypt.header2a10 ++ salt ++ List.replicate 31 (0 : Byte)).length = 60 := by
      simp [hfront7, hsalt]
    have h3 : List.drop (29 + hash.length)
        (bcrypt.header2a10 ++ salt ++ List.replicate 31 (0 : Byte)) = [] := by
      apply List.drop_eq_nil_of_le
      rw [h2]
      omega
    rw [h1, h2, h3, List.append_nil]
  have hfinal : (bcrypt.header2a10 ++ salt ++ hash.take 31).length = 60 := by
    simp [hfront7, hsalt, List.length_take]
    omega
  show List.take (7 + 22 + 31)
      (bcrypt.copy (bcrypt.copy (bcrypt.header2a10 ++ List.replicate 53 0) 7 salt) (7 + 22) hash) =
    bcrypt.header2a10 ++ salt ++ hash.take 31
  rw [hsaltcopy, hhashcopy]
  exact List.take_of_length_le (by omega)

/-- C3, refuted: a hash of bcrypt has 59 or 60 bytes, so a stored value of more
than 60 bytes is not a well-formed hash; yet no Blowfish computation that
yields a digest of 31 bytes for the empty password, cost 10 and the salt
`bcrypt.dotSalt` makes `VerifyPassword` reject every such value: the value made
of `$2a$10$`, that salt, that digest and one stray byte, 61 bytes, is accepted
for the empty candidate. -/
theorem hash_with_stray_byte_is_accepted :
    ¬ ∃ core : List Byte → Nat → List Byte → Except GoError (List Byte),
      (∃ digest, core [] 10 bcrypt.dotSalt = Except.ok digest ∧
        digest.length = bcrypt.encodedHashSize) ∧
      ∀ (u : User) (password : GoString), 60 < u.Password.length →
        u.VerifyPassword (bcrypt.CompareHashAndPassword core) password = false := by
  rintro ⟨core, ⟨digest, hcore, hdigest⟩, hclaim⟩
  have hsalt : bcrypt.dotSalt.length = 22 := by decide
  have hd : digest.length = 31 := hdigest
  have hparse := bcrypt.newFromHash_2a10 bcrypt.dotSalt (digest ++ [33]) hsalt
    (by simp [hd])
  have hstored := bcrypt.Hash_2a10 bcrypt.dotSalt (digest ++ [33]) hsalt (by simp [hd])
  have hother := bcrypt.Hash_2a10 bcrypt.dotSalt digest hsalt (by omega)
  have htake : List.take 31 (digest ++ [33]) = List.take 31 digest := by
    rw [← hd]
    simp
  have haccept : bcrypt.CompareHashAndPassword core
      (bcrypt.header2a10 ++ bcrypt.dotSalt ++ (digest ++ [33])) [] = none := by
    unfold bcrypt.CompareHashAndPassword
    simp only [hparse, hcore, hstored, hother, htake, if_true]
  have hfalse := hclaim
    { demo.zeroUser with Password := bcrypt.header2a10 ++ bcrypt.dotSalt ++ (digest ++ [33]) } []
    (by simp [bcrypt.header2a10, hsalt, hd])
  unfold User.VerifyPassword bytes at hfalse
  simp only [haccept] at hfalse
  exact Bool.noConfusion hfalse

/-- C3, amended: whatever the Blowfish computation, a record whose `Password`
is empty, shorter than 59 bytes (the shortest hash of bcrypt), does not start
with `$`, or names a major version above `2`, is rejected for every candidate,
the empty one included. -/
theorem verifyPassword_false_on_unparsable_hash
    (core : List Byte → Nat → List Byte → Except GoError (List Byte))
    (u : User) (password : GoString)
    (hbad : u.Password = [] ∨ u.Password.length < bcrypt.minHashSize ∨
      u.Password.head? ≠ some 36 ∨ ∃ v, u.Password[1]? = some v ∧ bcrypt.majorVersion < v) :
    u.VerifyPassword (bcrypt.CompareHashAndPassword core) password = false ∧
    u.VerifyPassword (bcrypt.CompareHashAndPassword core) [] = false := by
  have hbad' : u.Password.length < bcrypt.minHashSize ∨ u.Password.head? ≠ some 36 ∨
      ∃ v, u.Password[1]? = some v ∧ bcrypt.majorVersion < v := by
    rcases hbad with h | h | h | h
    · left
      rw [h]
      decide
    · exact Or.inl h
    · exact Or.inr (Or.inl h)
    · exact Or.inr (Or.inr h)
  obtain ⟨e, he⟩ := bcrypt.newFromHash_refuses u.Password hbad'
  have key : ∀ c, u.VerifyPassword (bcrypt.CompareHashAndPassword core) c = false := by
    intro c
    unfold User.VerifyPassword bytes
    rw [bcrypt.compare_of_newFromHash_error core u.Password c e he]
    rfl
  exact ⟨key password, key []⟩

/-- C3, amended, at concrete inputs: the empty `Password`, a `Password` of 58
bytes, one of 60 bytes that starts with `a`, and one of 60 bytes of version `3`
are each rejected, here for the candidate `[1, 2, 3]` and for the empty one. -/
theorem verifyPassword_false_on_unparsable_hash_witness :
    (demo.zeroUser.Password = [] ∧
      demo.zeroUser.VerifyPassword
        (bcrypt.CompareHashAndPassword fun _ _ _ => Except.ok (List.replicate 31 46))
        [1, 2, 3] = false) ∧
    ((List.replicate 58 (36 : Byte)).length < bcrypt.minHashSize ∧
      ({ demo.zeroUser with Password := List.replicate 58 36 } : User).VerifyPassword
        (bcrypt.CompareHashAndPassword fun _ _ _ => Except.ok (List.replicate 31 46))
        [1, 2, 3] = false) ∧
    ((97 :: List.replicate 59 (46 : Byte)).head? ≠ some 36 ∧
      ({ demo.zeroUser with Password := 97 :: List.replicate 59 46 } : User).VerifyPassword
        (bcrypt.CompareHashAndPassword fun _ _ _ => Except.ok (List.replicate 31 46))
        [] = false) ∧
    (bcrypt.majorVersion < 51 ∧
      ({ demo.zeroUser with Password := 36 :: 51 :: List.replicate 58 46 } : User).VerifyPassword
        (bcrypt.CompareHashAndPassword fun _ _ _ => Except.ok (List.replicate 31 46))
        [] = false) :=
  ⟨⟨rfl, (verifyPassword_false_on_unparsable_hash _ demo.zeroUser [1, 2, 3] (Or.inl rfl)).1⟩,
   ⟨by decide,
    (verifyPassword_false_on_unparsable_hash _
      { demo.zeroUser with Password := List.replicate 58 36 } [1, 2, 3]
      (Or.inr (Or.inl (by decide)))).1⟩,
   ⟨by decide,
    (verifyPassword_false_on_unparsable_hash _
      { demo.zeroUser with Password := 97 :: List.replicate 59 46 } []
      (Or.inr (Or.inr (Or.inl (by decide))))).1⟩,
   ⟨by decide,
    (verifyPassword_false_on_unparsable_hash _
      { demo.zeroUser with Password := 36 :: 51 :: List.replicate 58 46 } []
      (Or.inr (Or.inr (Or.inr ⟨51, rfl, by decide⟩)))).1⟩⟩

/-! ### The storage collaborator -/

/-- The contract `gorm.SaveInsertsUnknownKey` can be met: a `Save` that appends
the record it is given meets it. -/
theorem gorm.saveInsertsUnknownKey_satisfiable :
    ∃ Save : User → gorm.Table → gorm.Outcome, gorm.SaveInsertsUnknownKey Save :=
  ⟨fun u table => ⟨⟨none, 1⟩, u, table ++ [u]⟩, fun u _ _ _ _ => ⟨rfl, u, rfl, rfl⟩⟩

/-- C7, refuted: with no storage collaborator whose `Save` inserts a record of
unknown non-zero primary key, as the `Save` of gorm does, can `Save` of the
never-persisted `demo.unsavedUser` (primary key 7, the table holding the one row
of key 1) fail with `ErrRecordNotFound` and leave the table as it was. -/
theorem save_of_unknown_key_is_not_refused :
    (∀ r ∈ [demo.storedUser], r.ID ≠ demo.unsavedUser.ID) ∧
    ¬ ∃ GetDb : gorm.Store, gorm.SaveInsertsUnknownKey GetDb.Save ∧
        ((demo.unsavedUser.Save GetDb [demo.storedUser]).tx.Error =
            some gorm.ErrRecordNotFound ∧
          (demo.unsavedUser.Save GetDb [demo.storedUser]).table = [demo.storedUser]) := by
  refine ⟨by decide, ?_⟩
  rintro ⟨GetDb, hgorm, herr, -⟩
  have hins := (hgorm demo.unsavedUser [demo.storedUser] (by decide) (by decide) (by decide)).1
  unfold User.Save at herr
  rw [hins] at herr
  exact Option.noConfusion herr

/-- C7, amended: `Save` makes no check of its own: what it returns and the
table it leaves are those of the one call of the `Save` of the storage
collaborator, so it fails with `ErrRecordNotFound` exactly when that call does
and leaves the table without a new row exactly when that call does; and when
the collaborator inserts a record of unknown non-zero primary key, as gorm
does, `Save` of such a record carries no error, so not `ErrRecordNotFound`,
and the table has one row more, with the primary key of the record. -/
theorem save_reports_what_the_collaborator_reports
    (GetDb : gorm.Store) (u : User) (table : gorm.Table) :
    u.Save GetDb table = GetDb.Save u table ∧
    ((u.Save GetDb table).tx.Error = some gorm.ErrRecordNotFound ↔
      (GetDb.Save u table).tx.Error = some gorm.ErrRecordNotFound) ∧
    ((u.Save GetDb table).table = table ↔ (GetDb.Save u table).table = table) ∧
    (gorm.SaveInsertsUnknownKey GetDb.Save →
      u.ID ≠ 0 → (∀ r ∈ table, r.ID ≠ u.ID ∧ r.Email ≠ u.Email) →
      (u.Name.length ≤ 255 ∧ u.Email.length ≤ 100 ∧ u.Password.length ≤ 100 ∧
        (∀ t, u.VerificationToken = some t → t.length ≤ 50) ∧
        (∀ i, u.Image = some i → i.length ≤ 500) ∧ u.Verified.val ≤ 1 ∧ u.Admin.val ≤ 1) →
      (u.Save GetDb table).tx.Error = none ∧
      (u.Save GetDb table).tx.Error ≠ some gorm.ErrRecordNotFound ∧
      ∃ row : User, row.ID = u.ID ∧ (u.Save GetDb table).table = table ++ [row]) := by
  refine ⟨rfl, Iff.rfl, Iff.rfl, ?_⟩
  intro hgorm hid hnew hfit
  obtain ⟨herr, row, hrow, htable⟩ := hgorm u table hid hnew hfit
  unfold User.Save
  refine ⟨herr, ?_, row, hrow, htable⟩
  rw [herr]
  exact fun h => Option.noConfusion h
